import Mathlib

/-!
Verification of the Reber-grammar dataset generator (Lab8_1 notebook).

The notebook's core logic is embedded shallowly:
* a grammar is a list of states, each state a list of transitions
  `(production, next_state)`, where a production is either a single symbol
  or a nested grammar (`isinstance(production, list)` in the source);
* `np.random` is modelled as an explicit tape of natural numbers consumed
  left to right; a draw `np.random.randint(n)` takes the next tape cell
  modulo `n` (and fails, like `ValueError`, when `n = 0` or the tape ends);
* Python exceptions (`ValueError`, `IndexError`) and the unbounded `while`
  loop are modelled with `Option` and an explicit fuel parameter: a `some`
  result corresponds exactly to a run of the Python code that terminates
  without raising.
-/

/-- A production: a single symbol, or a nested grammar
(`isinstance(production, list)` in the source dispatches on this). -/
inductive GProd where
  | sym : Char → GProd
  | sub : List (List (GProd × Option Nat)) → GProd
deriving Repr

/-- A grammar state: its ordered list of transitions `(production, next_state)`;
`next_state = none` is the terminal sentinel (`None` in the source). -/
abbrev GState := List (GProd × Option Nat)

/-- A grammar: ordered list of states, state 0 is the start state. -/
abbrev Grammar := List GState

/-- `default_reber_grammar` from the notebook, transition for transition. -/
def default_reber_grammar : Grammar :=
  [[(.sym 'B', some 1)],
   [(.sym 'T', some 2), (.sym 'P', some 3)],
   [(.sym 'S', some 2), (.sym 'X', some 4)],
   [(.sym 'T', some 3), (.sym 'V', some 5)],
   [(.sym 'X', some 3), (.sym 'S', some 6)],
   [(.sym 'P', some 4), (.sym 'V', some 6)],
   [(.sym 'E', none)]]

/-- `embedded_reber_grammar` from the notebook: embeds the default grammar
twice as productions. -/
def embedded_reber_grammar : Grammar :=
  [[(.sym 'B', some 1)],
   [(.sym 'T', some 2), (.sym 'P', some 3)],
   [(.sub default_reber_grammar, some 4)],
   [(.sub default_reber_grammar, some 5)],
   [(.sym 'T', some 6)],
   [(.sym 'P', some 6)],
   [(.sym 'E', none)]]

/-- The PRNG, modelled as the tape of values it will produce, consumed left
to right.  Seeding the PRNG identically means starting from the same tape. -/
abbrev RNG := List Nat

/-- `np.random.randint(n)`: one uniform draw in `[0, n)`, modelled as the next
tape cell reduced mod `n`.  `none` models `ValueError` on `n = 0` (and tape
exhaustion, which the real PRNG never hits). -/
def randint (n : Nat) (rng : RNG) : Option (Nat × RNG) :=
  if n = 0 then none
  else
    match rng with
    | [] => none
    | x :: rest => some (x % n, rest)

/-- `np.random.choice(l)`: one uniform element of `l`, one draw consumed. -/
def choice (l : List Char) (rng : RNG) : Option (Char × RNG) :=
  (randint l.length rng).bind fun p =>
    (l.get? p.1).map fun c => (c, p.2)

/-- The body of `generate_string`, started from an arbitrary state: the
`while state is not None` loop.  Each iteration draws a transition index
uniformly, appends the production (recursively generating a full sub-string
when the production is a nested grammar) and advances to the transition's
next state.  `fuel` bounds the number of loop iterations / recursive calls;
`none` covers fuel exhaustion and the Python error cases (`IndexError` on a
missing state, `ValueError` on an empty transition list). -/
def genFrom (fuel : Nat) (g : Grammar) (state : Option Nat) (rng : RNG) :
    Option (List Char × RNG) :=
  match fuel with
  | 0 => none
  | fuel + 1 =>
    match state with
    | none => some ([], rng)
    | some st =>
      (g.get? st).bind fun ts =>
      (randint ts.length rng).bind fun dr =>
      (ts.get? dr.1).bind fun tr =>
      match tr.1 with
      | GProd.sym c =>
        (genFrom fuel g tr.2 dr.2).map fun r => (c :: r.1, r.2)
      | GProd.sub g2 =>
        (genFrom fuel g2 (some 0) dr.2).bind fun r1 =>
        (genFrom fuel g tr.2 r1.2).map fun r2 => (r1.1 ++ r2.1, r2.2)

/-- `generate_string(grammar)`: run the loop from state 0. Strings are
modelled as lists of characters. -/
def generate_string (fuel : Nat) (g : Grammar) (rng : RNG) :
    Option (List Char × RNG) :=
  genFrom fuel g (some 0) rng

/-- `POSSIBLE_CHARS = "BEPSTVX"`. -/
def POSSIBLE_CHARS : List Char := ['B', 'E', 'P', 'S', 'T', 'V', 'X']

/-- `sorted(set(chars) - set(good_char))`: the distinct members of `chars`
other than `c`, in ascending order. -/
def sortedDiff (chars : List Char) (c : Char) : List Char :=
  List.insertionSort (fun a b => a ≤ b) ((chars.filter (fun x => x ≠ c)).dedup)

/-- `generate_corrupted_string(grammar, chars)`: generate a good string, draw
a position, replace the symbol there by a uniform draw from
`sorted(set(chars) - set(good_char))`. -/
def generate_corrupted_string (fuel : Nat) (g : Grammar) (chars : List Char)
    (rng : RNG) : Option (List Char × RNG) :=
  (generate_string fuel g rng).bind fun gr =>
  (randint gr.1.length gr.2).bind fun ir =>
  (gr.1.get? ir.1).bind fun good_char =>
  (choice (sortedDiff chars good_char) ir.2).map fun br =>
    (gr.1.take ir.1 ++ br.1 :: gr.1.drop (ir.1 + 1), br.2)

/-- `string_to_ids(s, chars)`: `[chars.index(c) for c in s]`; `none` models
the `ValueError` that `str.index` raises on a symbol absent from `chars`. -/
def string_to_ids (chars : List Char) : List Char → Option (List Nat)
  | [] => some []
  | c :: rest =>
    (List.findIdx? (fun x => x == c) chars).bind fun i =>
    (string_to_ids chars rest).map fun l => i :: l

/-- One list comprehension of `generate_dataset`: run `gen` `n` times in
order, encoding each produced string with `string_to_ids`. -/
def genExamples (gen : RNG → Option (List Char × RNG)) :
    Nat → RNG → Option (List (List Nat) × RNG)
  | 0, rng => some ([], rng)
  | n + 1, rng =>
    (gen rng).bind fun sr =>
    (string_to_ids POSSIBLE_CHARS sr.1).bind fun ids =>
    (genExamples gen n sr.2).map fun rr => (ids :: rr.1, rr.2)

/-- `generate_dataset(size)`: `size // 2` encoded good strings then
`size - size // 2` encoded corrupted strings, with labels `1.` for the good
block and `0.` for the corrupted block (labels modelled as `1` and `0`).
Python `//` is floor division, hence `Int.fdiv`; a Python `range` of a
non-positive count is empty, hence `Int.toNat`.  The result models the pair
`(X, y)` (the ragged tensor `X` as the list of id sequences). -/
def generate_dataset (fuel : Nat) (size : Int) (rng : RNG) :
    Option (List (List Nat) × List Nat × RNG) :=
  (genExamples (generate_string fuel embedded_reber_grammar)
      (Int.fdiv size 2).toNat rng).bind fun goodr =>
  (genExamples
      (fun r => generate_corrupted_string fuel embedded_reber_grammar
        POSSIBLE_CHARS r)
      (size - Int.fdiv size 2).toNat goodr.2).map fun badr =>
    (goodr.1 ++ badr.1,
     goodr.1.map (fun _ => 1) ++ badr.1.map (fun _ => 0),
     badr.2)

/-- One call a driver can make against the shared PRNG. -/
inductive DriverCall where
  | genCall : Grammar → DriverCall
  | corruptCall : Grammar → List Char → DriverCall
  | datasetCall : Int → DriverCall

/-- The observable output of one driver call. -/
inductive CallOutput where
  | strOut : List Char → CallOutput
  | dataOut : List (List Nat) → List Nat → CallOutput
deriving DecidableEq

/-- Execute one driver call against the shared PRNG state. -/
def execCall (fuel : Nat) : DriverCall → RNG → Option (CallOutput × RNG)
  | .genCall g, rng =>
    (generate_string fuel g rng).map fun sr => (.strOut sr.1, sr.2)
  | .corruptCall g chars, rng =>
    (generate_corrupted_string fuel g chars rng).map fun sr =>
      (.strOut sr.1, sr.2)
  | .datasetCall n, rng =>
    (generate_dataset fuel n rng).map fun dr => (.dataOut dr.1 dr.2.1, dr.2.2)

/-- A run: a fixed sequence of calls executed in order against one shared
PRNG, each call consuming the randomness the previous calls left. -/
def runCalls (fuel : Nat) : List DriverCall → RNG → Option (List CallOutput × RNG)
  | [], rng => some ([], rng)
  | c :: rest, rng =>
    (execCall fuel c rng).bind fun outr =>
    (runCalls fuel rest outr.2).map fun rr => (outr.1 :: rr.1, rr.2)

/-- `Matches g state l`: from `state`, the grammar `g` can consume exactly the
symbols `l` along its transition table (recursing into nested sub-grammars
from their state 0) and reach the terminal sentinel with nothing left over.
This is the forward-run validity check of the spec. -/
inductive Matches : Grammar → Option Nat → List Char → Prop where
  | done (g : Grammar) : Matches g none []
  | step_sym (g : Grammar) (st : Nat) (ts : GState) (c : Char)
      (next : Option Nat) (rest : List Char) :
      g.get? st = some ts → (GProd.sym c, next) ∈ ts →
      Matches g next rest → Matches g (some st) (c :: rest)
  | step_sub (g : Grammar) (st : Nat) (ts : GState) (g2 : Grammar)
      (next : Option Nat) (cs rest : List Char) :
      g.get? st = some ts → (GProd.sub g2, next) ∈ ts →
      Matches g2 (some 0) cs → Matches g next rest →
      Matches g (some st) (cs ++ rest)

/-- All symbols a production can ever emit lie in `alpha` (recursively
through nested grammars). -/
inductive ProdOK (alpha : List Char) : GProd → Prop where
  | sym (c : Char) : c ∈ alpha → ProdOK alpha (.sym c)
  | sub (g2 : List GState) :
      (∀ ts ∈ g2, ∀ t ∈ ts, ProdOK alpha t.1) → ProdOK alpha (.sub g2)

/-- Every production of the grammar only emits symbols of `alpha`. -/
def GrammarOK (alpha : List Char) (g : Grammar) : Prop :=
  ∀ ts ∈ g, ∀ t ∈ ts, ProdOK alpha t.1


/-! ### Helper lemmas -/

theorem randint_lt {n : Nat} {rng : RNG} {i : Nat} {rng1 : RNG}
    (h : randint n rng = some (i, rng1)) : i < n := by
  unfold randint at h
  split at h
  · simp at h
  · rename_i hn
    cases rng with
    | nil => simp at h
    | cons x rest =>
      simp only [Option.some.injEq, Prod.mk.injEq] at h
      rw [← h.1]
      exact Nat.mod_lt _ (Nat.pos_of_ne_zero hn)

theorem matches_none {g : Grammar} {l : List Char} (h : Matches g none l) :
    l = [] := by
  cases h
  rfl

theorem genFrom_matches : ∀ (fuel : Nat) (g : Grammar) (st : Option Nat)
    (rng : RNG) (l : List Char) (rng1 : RNG),
    genFrom fuel g st rng = some (l, rng1) → Matches g st l := by
  intro fuel
  induction fuel with
  | zero => intro g st rng l rng1 h; simp [genFrom] at h
  | succ fuel ih =>
    intro g st rng l rng1 h
    cases st with
    | none =>
      simp only [genFrom, Option.some.injEq, Prod.mk.injEq] at h
      rw [← h.1]
      exact Matches.done g
    | some k =>
      simp only [genFrom, Option.bind_eq_some] at h
      obtain ⟨ts, hts, ⟨idx, rngA⟩, hdraw, ⟨p, next⟩, hget, h⟩ := h
      have hmem := List.get?_mem hget
      cases p with
      | sym c =>
        simp only [Option.map_eq_some'] at h
        obtain ⟨⟨rest, rngB⟩, hrec, h⟩ := h
        rw [Prod.mk.injEq] at h
        rw [← h.1]
        exact Matches.step_sym g k ts c next rest hts hmem
          (ih g next rngA rest rngB hrec)
      | sub g2 =>
        simp only [Option.bind_eq_some, Option.map_eq_some'] at h
        obtain ⟨⟨cs, rngB⟩, hrec2, ⟨rest, rngC⟩, hrec3, h⟩ := h
        rw [Prod.mk.injEq] at h
        rw [← h.1]
        exact Matches.step_sub g k ts g2 next cs rest hts hmem
          (ih g2 (some 0) rngA cs rngB hrec2)
          (ih g next rngB rest rngC hrec3)

/-! ### C1 -/

/-- C1: every string produced by `generate_string` on the base (default
Reber) grammar is a valid derivation of that grammar: running it forward
through the grammar's transition table from state 0, consuming exactly the
string's symbols (recursively for embedded sub-grammars), reaches the
terminal sentinel with no symbols left over. -/
theorem generated_strings_match_default_grammar (fuel : Nat) (rng : RNG)
    (s : List Char) (rng1 : RNG)
    (h : generate_string fuel default_reber_grammar rng = some (s, rng1)) :
    Matches default_reber_grammar (some 0) s :=
  genFrom_matches fuel default_reber_grammar (some 0) rng s rng1 h

/-- Witness for C1 at the concrete PRNG tape `[0, 1, 2, ...]`: the string
produced there, `BPTVPSE`, is a valid derivation. -/
theorem generated_strings_match_default_grammar_witness :
    Matches default_reber_grammar (some 0) ['B', 'P', 'T', 'V', 'P', 'S', 'E'] :=
  generated_strings_match_default_grammar 30
    [0, 1, 2, 3, 4, 5, 6, 7, 8, 9, 10, 11, 12, 13, 14, 15]
    ['B', 'P', 'T', 'V', 'P', 'S', 'E']
    [7, 8, 9, 10, 11, 12, 13, 14, 15] rfl

theorem mem_sortedDiff {chars : List Char} {c b : Char} :
    b ∈ sortedDiff chars c ↔ b ∈ chars ∧ b ≠ c := by
  unfold sortedDiff
  rw [List.mem_insertionSort, List.mem_dedup, List.mem_filter]
  simp

theorem choice_mem {l : List Char} {rng : RNG} {c : Char} {rng1 : RNG}
    (h : choice l rng = some (c, rng1)) : c ∈ l := by
  unfold choice at h
  simp only [Option.bind_eq_some, Option.map_eq_some'] at h
  obtain ⟨⟨i, rngA⟩, hdraw, c2, hget, h⟩ := h
  rw [Prod.mk.injEq] at h
  rw [← h.1]
  exact List.get?_mem hget

theorem corrupted_decomp {fuel : Nat} {g : Grammar} {chars : List Char}
    {rng : RNG} {out : List Char} {rng1 : RNG}
    (h : generate_corrupted_string fuel g chars rng = some (out, rng1)) :
    ∃ good rngA index rngB good_char bad_char rngC,
      generate_string fuel g rng = some (good, rngA) ∧
      randint good.length rngA = some (index, rngB) ∧
      good.get? index = some good_char ∧
      choice (sortedDiff chars good_char) rngB = some (bad_char, rngC) ∧
      out = good.take index ++ bad_char :: good.drop (index + 1) ∧
      rng1 = rngC := by
  unfold generate_corrupted_string at h
  simp only [Option.bind_eq_some, Option.map_eq_some'] at h
  obtain ⟨⟨good, rngA⟩, hgen, ⟨index, rngB⟩, hdraw, gc, hget, ⟨bc, rngC⟩, hch, hfin⟩ := h
  rw [Prod.mk.injEq] at hfin
  exact ⟨good, rngA, index, rngB, gc, bc, rngC, hgen, hdraw, hget, hch,
    hfin.1.symm, hfin.2.symm⟩

/-! ### C2 -/

/-- C2: every output of `generate_corrupted_string` has the length of the
baseline valid string obtained from `generate_string` (which has length at
least 1), differs from that baseline in exactly one position `i`, the symbol
placed at position `i` belongs to the alphabet and differs from the baseline
symbol there, and every other position is unchanged. -/
theorem corrupted_string_one_position_flip (fuel : Nat) (g : Grammar)
    (chars : List Char) (rng : RNG) (out : List Char) (rng1 : RNG)
    (h : generate_corrupted_string fuel g chars rng = some (out, rng1)) :
    ∃ good rngA, generate_string fuel g rng = some (good, rngA) ∧
      out.length = good.length ∧ 1 ≤ good.length ∧
      ∃ i b, i < good.length ∧ out.get? i = some b ∧ b ∈ chars ∧
        good.get? i ≠ some b ∧ ∀ j, j ≠ i → out.get? j = good.get? j := by
  obtain ⟨good, rngA, index, rngB, gc, bc, rngC, hgen, hdraw, hget, hch, hout, hrng⟩ :=
    corrupted_decomp h
  have hi : index < good.length := randint_lt hdraw
  have hset : out = good.set index bc := by
    rw [hout, List.set_eq_take_append_cons_drop, if_pos hi]
  have hbc : bc ∈ chars ∧ bc ≠ gc := mem_sortedDiff.mp (choice_mem hch)
  refine ⟨good, rngA, hgen, ?_, by omega, index, bc, hi, ?_, hbc.1, ?_, ?_⟩
  · rw [hset, List.length_set]
  · rw [hset, List.get?_set_eq, hget]
    rfl
  · rw [hget]
    intro hcontra
    exact hbc.2 (Option.some.inj hcontra).symm
  · intro j hj
    rw [hset, List.get?_set_ne bc good (Ne.symm hj)]

/-- Witness for C2 at a concrete PRNG tape on the default grammar: the
corrupted output `SPTVPSE` flips exactly one position of the baseline. -/
theorem corrupted_string_one_position_flip_witness :
    ∃ good rngA,
      generate_string 30 default_reber_grammar
        [0, 1, 2, 3, 4, 5, 6, 7, 8, 9, 10, 11, 12] = some (good, rngA) ∧
      (['S', 'P', 'T', 'V', 'P', 'S', 'E'] : List Char).length = good.length ∧
      1 ≤ good.length ∧
      ∃ i b, i < good.length ∧
        (['S', 'P', 'T', 'V', 'P', 'S', 'E'] : List Char).get? i = some b ∧
        b ∈ POSSIBLE_CHARS ∧ good.get? i ≠ some b ∧
        ∀ j, j ≠ i →
          (['S', 'P', 'T', 'V', 'P', 'S', 'E'] : List Char).get? j = good.get? j :=
  corrupted_string_one_position_flip 30 default_reber_grammar POSSIBLE_CHARS
    [0, 1, 2, 3, 4, 5, 6, 7, 8, 9, 10, 11, 12]
    ['S', 'P', 'T', 'V', 'P', 'S', 'E'] [9, 10, 11, 12] rfl

/-! ### C8 -/

/-- C8: when `generate_string` reaches a transition whose production is a
nested grammar, it recursively generates a complete string from state 0 of
that sub-grammar (independently of the outer grammar's state), appends that
full sub-string (not a single symbol) to the output, and then advances to
the transition's next state; the final output is the concatenation of the
sub-string and the remaining emitted symbols, in production order. -/
theorem generate_string_sub_grammar_recursion (fuel : Nat) (g : Grammar)
    (st : Nat) (ts : GState) (idx : Nat) (g2 : Grammar) (next : Option Nat)
    (rng rngA rngB rngC : RNG) (cs rest : List Char)
    (hts : g.get? st = some ts)
    (hdraw : randint ts.length rng = some (idx, rngA))
    (hget : ts.get? idx = some (GProd.sub g2, next))
    (hsub : generate_string fuel g2 rngA = some (cs, rngB))
    (hcont : genFrom fuel g next rngB = some (rest, rngC)) :
    genFrom (fuel + 1) g (some st) rng = some (cs ++ rest, rngC) := by
  simp only [genFrom, Option.bind_eq_some]
  exact ⟨ts, hts, (idx, rngA), hdraw, (GProd.sub g2, next), hget,
    Option.bind_eq_some.mpr ⟨(cs, rngB), hsub,
      Option.map_eq_some'.mpr ⟨(rest, rngC), hcont, rfl⟩⟩⟩

/-- Witness for C8: in the embedded Reber grammar at state 3, the selected
transition's production is the nested default grammar; the output is the
full recursively generated sub-string `BTXXVPSE` followed by the
continuation `PE`. -/
theorem generate_string_sub_grammar_recursion_witness :
    genFrom 30 embedded_reber_grammar (some 3)
      [2, 3, 4, 5, 6, 7, 8, 9, 10, 11, 12, 13, 14, 15, 16, 17, 18, 19] =
    some (['B', 'T', 'X', 'X', 'V', 'P', 'S', 'E'] ++ ['P', 'E'],
      [13, 14, 15, 16, 17, 18, 19]) :=
  generate_string_sub_grammar_recursion 29 embedded_reber_grammar 3
    [(GProd.sub default_reber_grammar, some 5)] 0 default_reber_grammar
    (some 5)
    [2, 3, 4, 5, 6, 7, 8, 9, 10, 11, 12, 13, 14, 15, 16, 17, 18, 19]
    [3, 4, 5, 6, 7, 8, 9, 10, 11, 12, 13, 14, 15, 16, 17, 18, 19]
    [11, 12, 13, 14, 15, 16, 17, 18, 19]
    [13, 14, 15, 16, 17, 18, 19]
    ['B', 'T', 'X', 'X', 'V', 'P', 'S', 'E'] ['P', 'E']
    rfl rfl rfl rfl rfl

theorem matches_head_B {g : Grammar} {l : List Char}
    (h0 : g.get? 0 = some [(GProd.sym 'B', some 1)])
    (h : Matches g (some 0) l) : ∃ rest, l = 'B' :: rest := by
  cases h with
  | step_sym _ _ ts c next rest hts hmem _ =>
    rw [h0] at hts
    injection hts with hts
    subst hts
    simp only [List.mem_singleton, Prod.mk.injEq, GProd.sym.injEq] at hmem
    exact ⟨rest, by rw [hmem.1]⟩
  | step_sub _ _ ts g2 next cs rest hts hmem _ _ =>
    rw [h0] at hts
    injection hts with hts
    subst hts
    simp at hmem

theorem matches_last_E : ∀ (g : Grammar) (st : Option Nat) (l : List Char),
    Matches g st l →
    (∀ ts ∈ g, ∀ t ∈ ts, t.2 = none → t.1 = GProd.sym 'E') →
    (∀ ts ∈ g, ∀ t ∈ ts, ∀ g2, t.1 = GProd.sub g2 → t.2 ≠ none) →
    st ≠ none → l ≠ [] ∧ l.getLast? = some 'E' := by
  intro g st l h
  induction h with
  | done g => intro _ _ hne; exact absurd rfl hne
  | step_sym g k ts c next rest hts hmem hrest ih =>
    intro hterm hsubne _
    cases next with
    | none =>
      have hrnil : rest = [] := matches_none hrest
      subst hrnil
      have hE := hterm ts (List.get?_mem hts) (GProd.sym c, none) hmem rfl
      have hc : c = 'E' := by
        injection hE with hE
      subst hc
      exact ⟨by simp, rfl⟩
    | some k2 =>
      obtain ⟨hne2, hlast⟩ := ih hterm hsubne (by simp)
      refine ⟨by simp, ?_⟩
      have : (c :: rest) = [c] ++ rest := rfl
      rw [this, List.getLast?_append, hlast]
      rfl
  | step_sub g k ts g2 next cs rest hts hmem hsub hrest ih1 ih2 =>
    intro hterm hsubne _
    have hne : next ≠ none :=
      hsubne ts (List.get?_mem hts) (GProd.sub g2, next) hmem g2 rfl
    cases next with
    | none => exact absurd rfl hne
    | some k2 =>
      obtain ⟨hne2, hlast⟩ := ih2 hterm hsubne (by simp)
      refine ⟨?_, ?_⟩
      · intro hnil
        rcases List.append_eq_nil.mp hnil with ⟨_, h2⟩
        exact hne2 h2
      · rw [List.getLast?_append, hlast]
        rfl

theorem default_term_E : ∀ ts ∈ default_reber_grammar, ∀ t ∈ ts,
    t.2 = none → t.1 = GProd.sym 'E' := by
  intro ts hts t ht
  simp only [default_reber_grammar, List.mem_cons, List.not_mem_nil, or_false]
    at hts
  rcases hts with rfl | rfl | rfl | rfl | rfl | rfl | rfl <;>
    simp only [List.mem_cons, List.not_mem_nil, or_false] at ht <;>
    rcases ht with rfl | rfl <;> simp

theorem default_sub_ne : ∀ ts ∈ default_reber_grammar, ∀ t ∈ ts,
    ∀ g2, t.1 = GProd.sub g2 → t.2 ≠ none := by
  intro ts hts t ht g2
  simp only [default_reber_grammar, List.mem_cons, List.not_mem_nil, or_false]
    at hts
  rcases hts with rfl | rfl | rfl | rfl | rfl | rfl | rfl <;>
    simp only [List.mem_cons, List.not_mem_nil, or_false] at ht <;>
    rcases ht with rfl | rfl <;> simp

theorem embedded_term_E : ∀ ts ∈ embedded_reber_grammar, ∀ t ∈ ts,
    t.2 = none → t.1 = GProd.sym 'E' := by
  intro ts hts t ht
  simp only [embedded_reber_grammar, List.mem_cons, List.not_mem_nil, or_false]
    at hts
  rcases hts with rfl | rfl | rfl | rfl | rfl | rfl | rfl <;>
    simp only [List.mem_cons, List.not_mem_nil, or_false] at ht <;>
    rcases ht with rfl | rfl <;> simp

theorem embedded_sub_ne : ∀ ts ∈ embedded_reber_grammar, ∀ t ∈ ts,
    ∀ g2, t.1 = GProd.sub g2 → t.2 ≠ none := by
  intro ts hts t ht g2
  simp only [embedded_reber_grammar, List.mem_cons, List.not_mem_nil, or_false]
    at hts
  rcases hts with rfl | rfl | rfl | rfl | rfl | rfl | rfl <;>
    simp only [List.mem_cons, List.not_mem_nil, or_false] at ht <;>
    rcases ht with rfl | rfl <;> simp

/-! ### C10 -/

/-- C10: every string produced by `generate_string` on the default Reber
grammar or the embedded Reber grammar is non-empty, begins with `B` and ends
with `E`; in particular its length is at least 1, so the corrupter's uniform
position draw over `[0, L)` is well-defined on such output. -/
theorem generated_strings_nonempty_B_E (fuel : Nat) (g : Grammar) (rng : RNG)
    (s : List Char) (rng1 : RNG)
    (hg : g = default_reber_grammar ∨ g = embedded_reber_grammar)
    (h : generate_string fuel g rng = some (s, rng1)) :
    s ≠ [] ∧ s.head? = some 'B' ∧ s.getLast? = some 'E' := by
  have hm : Matches g (some 0) s := genFrom_matches fuel g (some 0) rng s rng1 h
  have h0 : g.get? 0 = some [(GProd.sym 'B', some 1)] := by
    rcases hg with hg | hg <;> subst hg <;> rfl
  obtain ⟨rest, hrest⟩ := matches_head_B h0 hm
  have hlast : s ≠ [] ∧ s.getLast? = some 'E' := by
    rcases hg with hg | hg <;> subst hg
    · exact matches_last_E _ _ _ hm default_term_E default_sub_ne (by simp)
    · exact matches_last_E _ _ _ hm embedded_term_E embedded_sub_ne (by simp)
  exact ⟨hlast.1, by rw [hrest]; rfl, hlast.2⟩

/-- Witness for C10: the string generated on the default grammar at the tape
`[0, 1, 2, ...]` is non-empty, starts with `B` and ends with `E`. -/
theorem generated_strings_nonempty_B_E_witness :
    (['B', 'P', 'T', 'V', 'P', 'S', 'E'] : List Char) ≠ [] ∧
    (['B', 'P', 'T', 'V', 'P', 'S', 'E'] : List Char).head? = some 'B' ∧
    (['B', 'P', 'T', 'V', 'P', 'S', 'E'] : List Char).getLast? = some 'E' :=
  generated_strings_nonempty_B_E 30 default_reber_grammar
    [0, 1, 2, 3, 4, 5, 6, 7, 8, 9, 10, 11, 12, 13, 14, 15]
    ['B', 'P', 'T', 'V', 'P', 'S', 'E']
    [7, 8, 9, 10, 11, 12, 13, 14, 15] (Or.inl rfl) rfl

theorem genFrom_alpha : ∀ (fuel : Nat) (alpha : List Char) (g : Grammar)
    (st : Option Nat) (rng : RNG) (l : List Char) (rng1 : RNG),
    GrammarOK alpha g → genFrom fuel g st rng = some (l, rng1) →
    ∀ c ∈ l, c ∈ alpha := by
  intro fuel
  induction fuel with
  | zero => intro alpha g st rng l rng1 _ h; simp [genFrom] at h
  | succ fuel ih =>
    intro alpha g st rng l rng1 hok h
    cases st with
    | none =>
      simp only [genFrom, Option.some.injEq, Prod.mk.injEq] at h
      rw [← h.1]
      intro c hc
      simp at hc
    | some k =>
      simp only [genFrom, Option.bind_eq_some] at h
      obtain ⟨ts, hts, ⟨idx, rngA⟩, hdraw, ⟨p, next⟩, hget, h⟩ := h
      have hpok : ProdOK alpha p :=
        hok ts (List.get?_mem hts) (p, next) (List.get?_mem hget)
      cases p with
      | sym c =>
        simp only [Option.map_eq_some'] at h
        obtain ⟨⟨rest, rngB⟩, hrec, h⟩ := h
        rw [Prod.mk.injEq] at h
        rw [← h.1]
        intro d hd
        rcases List.mem_cons.mp hd with rfl | hd2
        · cases hpok with | sym _ hc => exact hc
        · exact ih alpha g next rngA rest rngB hok hrec d hd2
      | sub g2 =>
        simp only [Option.bind_eq_some, Option.map_eq_some'] at h
        obtain ⟨⟨cs, rngB⟩, hrec2, ⟨rest, rngC⟩, hrec3, h⟩ := h
        rw [Prod.mk.injEq] at h
        rw [← h.1]
        intro d hd
        rcases List.mem_append.mp hd with hd2 | hd2
        · cases hpok with
          | sub _ hsub =>
            exact ih alpha g2 (some 0) rngA cs rngB hsub hrec2 d hd2
        · exact ih alpha g next rngB rest rngC hok hrec3 d hd2

theorem default_grammar_ok : GrammarOK POSSIBLE_CHARS default_reber_grammar := by
  intro ts hts t ht
  simp only [default_reber_grammar, List.mem_cons, List.not_mem_nil, or_false]
    at hts
  rcases hts with rfl | rfl | rfl | rfl | rfl | rfl | rfl <;>
    simp only [List.mem_cons, List.not_mem_nil, or_false] at ht <;>
    rcases ht with rfl | rfl <;> exact ProdOK.sym _ (by decide)

theorem embedded_grammar_ok : GrammarOK POSSIBLE_CHARS embedded_reber_grammar := by
  intro ts hts t ht
  simp only [embedded_reber_grammar, List.mem_cons, List.not_mem_nil, or_false]
    at hts
  rcases hts with rfl | rfl | rfl | rfl | rfl | rfl | rfl <;>
    simp only [List.mem_cons, List.not_mem_nil, or_false] at ht <;>
    rcases ht with rfl | rfl <;>
    first
      | exact ProdOK.sym _ (by decide)
      | exact ProdOK.sub _ default_grammar_ok

theorem string_to_ids_isSome : ∀ (s chars : List Char),
    (∀ c ∈ s, c ∈ chars) → (string_to_ids chars s).isSome = true := by
  intro s chars
  induction s with
  | nil => intro _; simp [string_to_ids]
  | cons c rest ih =>
    intro h
    have hc : c ∈ chars := h c (by simp)
    have hfind : (List.findIdx? (fun x => x == c) chars).isSome = true := by
      rw [List.findIdx?_isSome]
      exact List.any_eq_true.mpr ⟨c, hc, by simp⟩
    obtain ⟨i, hi⟩ := Option.isSome_iff_exists.mp hfind
    obtain ⟨l, hl⟩ :=
      Option.isSome_iff_exists.mp (ih (fun d hd => h d (by simp [hd])))
    simp [string_to_ids, hi, hl]

theorem corrupted_alpha {fuel : Nat} {g : Grammar} {rng : RNG}
    {out : List Char} {rng1 : RNG} (hok : GrammarOK POSSIBLE_CHARS g)
    (h : generate_corrupted_string fuel g POSSIBLE_CHARS rng = some (out, rng1)) :
    ∀ c ∈ out, c ∈ POSSIBLE_CHARS := by
  obtain ⟨good, rngA, index, rngB, gc, bc, rngC, hgen, hdraw, hget, hch, hout, _⟩ :=
    corrupted_decomp h
  have hgood : ∀ c ∈ good, c ∈ POSSIBLE_CHARS :=
    genFrom_alpha fuel POSSIBLE_CHARS g (some 0) rng good rngA hok hgen
  have hbc : bc ∈ POSSIBLE_CHARS := (mem_sortedDiff.mp (choice_mem hch)).1
  intro c hc
  rw [hout] at hc
  rcases List.mem_append.mp hc with hc1 | hc2
  · exact hgood c (List.mem_of_mem_take hc1)
  · rcases List.mem_cons.mp hc2 with rfl | hc3
    · exact hbc
    · exact hgood c (List.mem_of_mem_drop hc3)

/-! ### C9 -/

/-- C9: every string produced by `generate_string` or
`generate_corrupted_string` on the two stock grammars with the alphabet
`BEPSTVX` contains only alphabet symbols, so the encoder's failure branch is
unreachable on such input and `string_to_ids` succeeds. -/
theorem generator_output_alphabet_closed (fuel : Nat) (g : Grammar) (rng : RNG)
    (out : List Char) (rng1 : RNG)
    (hg : g = default_reber_grammar ∨ g = embedded_reber_grammar)
    (h : generate_string fuel g rng = some (out, rng1) ∨
         generate_corrupted_string fuel g POSSIBLE_CHARS rng = some (out, rng1)) :
    (∀ c ∈ out, c ∈ POSSIBLE_CHARS) ∧
    (string_to_ids POSSIBLE_CHARS out).isSome = true := by
  have hok : GrammarOK POSSIBLE_CHARS g := by
    rcases hg with rfl | rfl
    · exact default_grammar_ok
    · exact embedded_grammar_ok
  have hmem : ∀ c ∈ out, c ∈ POSSIBLE_CHARS := by
    rcases h with h | h
    · exact genFrom_alpha fuel POSSIBLE_CHARS g (some 0) rng out rng1 hok h
    · exact corrupted_alpha hok h
  exact ⟨hmem, string_to_ids_isSome out POSSIBLE_CHARS hmem⟩

/-- Witness for C9: the concrete generated string `BPTVPSE` is
alphabet-closed and encodes successfully. -/
theorem generator_output_alphabet_closed_witness :
    (∀ c ∈ (['B', 'P', 'T', 'V', 'P', 'S', 'E'] : List Char),
      c ∈ POSSIBLE_CHARS) ∧
    (string_to_ids POSSIBLE_CHARS
      ['B', 'P', 'T', 'V', 'P', 'S', 'E']).isSome = true :=
  generator_output_alphabet_closed 30 default_reber_grammar
    [0, 1, 2, 3, 4, 5, 6, 7, 8, 9, 10, 11, 12, 13, 14, 15]
    ['B', 'P', 'T', 'V', 'P', 'S', 'E']
    [7, 8, 9, 10, 11, 12, 13, 14, 15] (Or.inl rfl) (Or.inl rfl)

theorem findIdx?_get {p : Char → Bool} {chars : List Char} {i : Nat}
    (h : List.findIdx? p chars = some i) :
    ∃ c, chars.get? i = some c ∧ p c = true := by
  obtain ⟨hlt, hidx⟩ := List.findIdx?_eq_some_iff_findIdx_eq.mp h
  subst hidx
  exact ⟨chars.get ⟨_, hlt⟩, List.get?_eq_get hlt, List.findIdx_getElem⟩

theorem string_to_ids_get? : ∀ (s chars : List Char) (l : List Nat),
    string_to_ids chars s = some l →
    l.length = s.length ∧
    ∀ i c, s.get? i = some c →
      l.get? i = List.findIdx? (fun x => x == c) chars := by
  intro s
  induction s with
  | nil =>
    intro chars l h
    simp only [string_to_ids, Option.some.injEq] at h
    rw [← h]
    exact ⟨rfl, by intro i c hc; simp at hc⟩
  | cons c rest ih =>
    intro chars l h
    simp only [string_to_ids, Option.bind_eq_some, Option.map_eq_some'] at h
    obtain ⟨i, hfind, l2, hrest, hl⟩ := h
    obtain ⟨hlen, hget⟩ := ih chars l2 hrest
    rw [← hl]
    refine ⟨by simp [hlen], ?_⟩
    intro j d hj
    cases j with
    | zero =>
      simp only [List.get?] at hj ⊢
      rw [← hfind]
      injection hj with hj
      rw [hj]
    | succ j =>
      simp only [List.get?] at hj ⊢
      exact hget j d hj

/-! ### C4 -/

/-- C4: for every input string whose symbols all belong to the alphabet,
`string_to_ids` returns an integer sequence of the same length in which
entry `i` is the zero-based index in `POSSIBLE_CHARS` of symbol `i` (so the
alphabet at that index is exactly that symbol); in particular
`string_to_ids "BTTTXXVVETE"` is `[0,4,4,4,6,6,5,5,1,4,1]`. -/
theorem string_to_ids_encodes_indices (s : List Char)
    (h : ∀ c ∈ s, c ∈ POSSIBLE_CHARS) :
    ∃ l, string_to_ids POSSIBLE_CHARS s = some l ∧
      l.length = s.length ∧
      (∀ i c, s.get? i = some c →
        l.get? i = List.findIdx? (fun x => x == c) POSSIBLE_CHARS ∧
        ∃ j, l.get? i = some j ∧ POSSIBLE_CHARS.get? j = some c) ∧
      string_to_ids POSSIBLE_CHARS
        ['B', 'T', 'T', 'T', 'X', 'X', 'V', 'V', 'E', 'T', 'E'] =
        some [0, 4, 4, 4, 6, 6, 5, 5, 1, 4, 1] := by
  obtain ⟨l, hl⟩ :=
    Option.isSome_iff_exists.mp (string_to_ids_isSome s POSSIBLE_CHARS h)
  obtain ⟨hlen, hget⟩ := string_to_ids_get? s POSSIBLE_CHARS l hl
  refine ⟨l, hl, hlen, ?_, by rfl⟩
  intro i c hc
  have hfi := hget i c hc
  refine ⟨hfi, ?_⟩
  have hcmem : c ∈ POSSIBLE_CHARS := h c (List.get?_mem hc)
  have hs : (List.findIdx? (fun x => x == c) POSSIBLE_CHARS).isSome = true := by
    rw [List.findIdx?_isSome]
    exact List.any_eq_true.mpr ⟨c, hcmem, by simp⟩
  obtain ⟨j, hj⟩ := Option.isSome_iff_exists.mp hs
  obtain ⟨c2, hc2get, hc2p⟩ := findIdx?_get hj
  have hc2 : c2 = c := by simpa using hc2p
  subst hc2
  exact ⟨j, by rw [hfi, hj], hc2get⟩

/-- Witness for C4 at the concrete string `BTTTXXVVETE` of the spec. -/
theorem string_to_ids_encodes_indices_witness :
    ∃ l, string_to_ids POSSIBLE_CHARS
        ['B', 'T', 'T', 'T', 'X', 'X', 'V', 'V', 'E', 'T', 'E'] = some l ∧
      l.length =
        (['B', 'T', 'T', 'T', 'X', 'X', 'V', 'V', 'E', 'T', 'E'] :
          List Char).length ∧
      (∀ i c,
        (['B', 'T', 'T', 'T', 'X', 'X', 'V', 'V', 'E', 'T', 'E'] :
          List Char).get? i = some c →
        l.get? i = List.findIdx? (fun x => x == c) POSSIBLE_CHARS ∧
        ∃ j, l.get? i = some j ∧ POSSIBLE_CHARS.get? j = some c) ∧
      string_to_ids POSSIBLE_CHARS
        ['B', 'T', 'T', 'T', 'X', 'X', 'V', 'V', 'E', 'T', 'E'] =
        some [0, 4, 4, 4, 6, 6, 5, 5, 1, 4, 1] :=
  string_to_ids_encodes_indices
    ['B', 'T', 'T', 'T', 'X', 'X', 'V', 'V', 'E', 'T', 'E'] (by decide)

/-! ### C5 -/

/-- C5: `string_to_ids` fails (with the unknown-symbol error, modelled as
`none`) if and only if some symbol of the input is absent from the
alphabet; on failure no encoded sequence is returned. -/
theorem string_to_ids_fails_iff_unknown_symbol (chars s : List Char) :
    string_to_ids chars s = none ↔ ∃ c ∈ s, c ∉ chars := by
  induction s with
  | nil => simp [string_to_ids]
  | cons c rest ih =>
    simp only [string_to_ids]
    rcases hfind : List.findIdx? (fun x => x == c) chars with _ | i
    · simp only [Option.none_bind]
      constructor
      · intro _
        refine ⟨c, by simp, ?_⟩
        intro hc
        have hfalse := List.findIdx?_eq_none_iff.mp hfind c hc
        simp at hfalse
      · intro _; trivial
    · simp only [Option.some_bind, Option.map_eq_none']
      rw [ih]
      constructor
      · rintro ⟨d, hd, hdc⟩
        exact ⟨d, by simp [hd], hdc⟩
      · rintro ⟨d, hd, hdc⟩
        rcases List.mem_cons.mp hd with rfl | hd2
        · obtain ⟨c2, hc2get, hc2p⟩ := findIdx?_get hfind
          have hc2 : c2 = d := by simpa using hc2p
          exact absurd (hc2 ▸ List.get?_mem hc2get) hdc
        · exact ⟨d, hd2, hdc⟩

theorem genExamples_length : ∀ (gen : RNG → Option (List Char × RNG)) (n : Nat)
    (rng : RNG) (xs : List (List Nat)) (rng1 : RNG),
    genExamples gen n rng = some (xs, rng1) → xs.length = n := by
  intro gen n
  induction n with
  | zero =>
    intro rng xs rng1 h
    simp only [genExamples, Option.some.injEq, Prod.mk.injEq] at h
    rw [← h.1]
    rfl
  | succ n ih =>
    intro rng xs rng1 h
    simp only [genExamples, Option.bind_eq_some, Option.map_eq_some'] at h
    obtain ⟨⟨s, rngA⟩, hgen, ids, hids, ⟨rest, rngB⟩, hrec, hfin⟩ := h
    rw [Prod.mk.injEq] at hfin
    rw [← hfin.1]
    simp [ih rngA rest rngB hrec]

/-! ### C3 -/

/-- C3: for every requested size `N ≥ 0`, a successful
`generate_dataset fuel N rng` returns exactly `N` examples, of which exactly
`N // 2` carry label 1 and exactly `N - N // 2` carry label 0, with all
label-1 examples preceding all label-0 examples; in particular a size-0
dataset is empty and a size-1 dataset is a single label-0 example. -/
theorem generate_dataset_balanced (N : Int) (hN : 0 ≤ N) (fuel : Nat)
    (rng : RNG) (X : List (List Nat)) (y : List Nat) (rng1 : RNG)
    (h : generate_dataset fuel N rng = some (X, y, rng1)) :
    X.length = N.toNat ∧ y.length = N.toNat ∧
    y = List.replicate (Int.fdiv N 2).toNat 1 ++
        List.replicate (N.toNat - (Int.fdiv N 2).toNat) 0 ∧
    List.count 1 y = (Int.fdiv N 2).toNat ∧
    List.count 0 y = N.toNat - (Int.fdiv N 2).toNat ∧
    (N = 0 → X = [] ∧ y = []) ∧
    (N = 1 → X.length = 1 ∧ y = [0]) := by
  unfold generate_dataset at h
  simp only [Option.bind_eq_some, Option.map_eq_some'] at h
  obtain ⟨⟨good, rngA⟩, hgood, ⟨bad, rngB⟩, hbad, hfin⟩ := h
  simp only [Prod.mk.injEq] at hfin
  obtain ⟨hX, hy, hr⟩ := hfin
  have hg := genExamples_length _ _ _ _ _ hgood
  have hb := genExamples_length _ _ _ _ _ hbad
  have harith : (Int.fdiv N 2).toNat + (N - Int.fdiv N 2).toNat = N.toNat ∧
      (N - Int.fdiv N 2).toNat = N.toNat - (Int.fdiv N 2).toNat := by
    rw [Int.fdiv_eq_ediv _ (by norm_num)]
    omega
  have hyrep : y = List.replicate (Int.fdiv N 2).toNat 1 ++
      List.replicate (N.toNat - (Int.fdiv N 2).toNat) 0 := by
    rw [← hy, List.map_const', List.map_const', hg, hb, harith.2]
  refine ⟨?_, ?_, hyrep, ?_, ?_, ?_, ?_⟩
  · rw [← hX, List.length_append, hg, hb, harith.1]
  · rw [← hy, List.length_append, List.length_map, List.length_map, hg, hb,
      harith.1]
  · rw [hyrep, List.count_append, List.count_replicate_self,
      List.count_replicate]
    simp
  · rw [hyrep, List.count_append, List.count_replicate_self,
      List.count_replicate]
    simp
  · intro hN0
    subst hN0
    have hg0 : good.length = 0 := by rw [hg]; decide
    have hb0 : bad.length = 0 := by rw [hb]; decide
    rw [List.length_eq_zero] at hg0 hb0
    subst hg0 hb0
    exact ⟨hX.symm, hy.symm⟩
  · intro hN1
    subst hN1
    have hg0 : good.length = 0 := by rw [hg]; decide
    rw [List.length_eq_zero] at hg0
    subst hg0
    have hb1 : bad.length = 1 := by rw [hb]; decide
    constructor
    · rw [← hX, List.length_append, hb1]
      rfl
    · rw [← hy]
      simp only [List.map_nil, List.nil_append, List.map_const', hb1]
      rfl

/-- Witness for C3 at size 1 and a concrete tape: one example, label 0. -/
theorem generate_dataset_balanced_witness :
    ([[0, 3, 0, 4, 6, 6, 5, 2, 3, 1, 2, 1]] : List (List Nat)).length =
      (1 : Int).toNat ∧
    ([0] : List Nat).length = (1 : Int).toNat ∧
    ([0] : List Nat) = List.replicate (Int.fdiv 1 2).toNat 1 ++
      List.replicate ((1 : Int).toNat - (Int.fdiv 1 2).toNat) 0 ∧
    List.count 1 ([0] : List Nat) = (Int.fdiv 1 2).toNat ∧
    List.count 0 ([0] : List Nat) = (1 : Int).toNat - (Int.fdiv 1 2).toNat ∧
    ((1 : Int) = 0 → ([[0, 3, 0, 4, 6, 6, 5, 2, 3, 1, 2, 1]] :
      List (List Nat)) = [] ∧ ([0] : List Nat) = []) ∧
    ((1 : Int) = 1 → ([[0, 3, 0, 4, 6, 6, 5, 2, 3, 1, 2, 1]] :
      List (List Nat)).length = 1 ∧ ([0] : List Nat) = [0]) :=
  generate_dataset_balanced 1 (by norm_num) 30
    [0, 1, 2, 3, 4, 5, 6, 7, 8, 9, 10, 11, 12, 13, 14, 15]
    [[0, 3, 0, 4, 6, 6, 5, 2, 3, 1, 2, 1]] [0] [15] rfl

/-! ### C6 -/

/-- C6 counterexample: at the negative size `-1`, `generate_dataset` is not
rejected with an error; it returns (`some`) an empty dataset. -/
theorem generate_dataset_negative_not_rejected_cex :
    generate_dataset 1 (-1) [] = some ([], [], []) := rfl

/-- C6 amended: for every negative requested size `N < 0`,
`generate_dataset` performs no string-generation work (the PRNG is left
untouched, so no generator or corrupter call is made) and, instead of being
rejected with an error, returns an empty dataset. -/
theorem generate_dataset_negative_returns_empty (N : Int) (hN : N < 0)
    (fuel : Nat) (rng : RNG) :
    generate_dataset fuel N rng = some ([], [], rng) := by
  have h1 : (Int.fdiv N 2).toNat = 0 := by
    rw [Int.fdiv_eq_ediv _ (by norm_num)]
    omega
  have h2 : (N - Int.fdiv N 2).toNat = 0 := by
    rw [Int.fdiv_eq_ediv _ (by norm_num)]
    omega
  unfold generate_dataset
  rw [h1, h2]
  rfl

/-- Witness for the amended C6 at size `-1`. -/
theorem generate_dataset_negative_returns_empty_witness :
    generate_dataset 3 (-1) [5] = some ([], [], [5]) :=
  generate_dataset_negative_returns_empty (-1) (by norm_num) 3 [5]

/-! ### C7 -/

/-- C7: (determinism) two runs that seed the shared PRNG identically and
make the same sequence of `generate_string` / `generate_corrupted_string` /
`generate_dataset` calls produce identical outputs for every call; and
(draw order) each corrupter call consumes randomness in the fixed order:
first the generator's state-transition draws, then the position draw, then
the replacement-symbol draw. -/
theorem prng_determinism_and_draw_order :
    (∀ (fuel : Nat) (calls : List DriverCall) (rng1 rng2 : RNG),
      rng1 = rng2 → runCalls fuel calls rng1 = runCalls fuel calls rng2) ∧
    (∀ (fuel : Nat) (g : Grammar) (chars : List Char)
      (rng rngA rngB rngC : RNG) (good : List Char) (index : Nat)
      (good_char bad_char : Char),
      generate_string fuel g rng = some (good, rngA) →
      randint good.length rngA = some (index, rngB) →
      good.get? index = some good_char →
      choice (sortedDiff chars good_char) rngB = some (bad_char, rngC) →
      generate_corrupted_string fuel g chars rng =
        some (good.take index ++ bad_char :: good.drop (index + 1), rngC)) := by
  constructor
  · intro fuel calls rng1 rng2 h
    rw [h]
  · intro fuel g chars rng rngA rngB rngC good index gc bc h1 h2 h3 h4
    unfold generate_corrupted_string
    rw [h1, Option.some_bind, h2, Option.some_bind, h3, Option.some_bind, h4]
    rfl

/-- Witness for C7: a concrete identical-seed pair of runs agrees, and a
concrete corrupter call decomposes into the three-draw order. -/
theorem prng_determinism_and_draw_order_witness :
    runCalls 30 [DriverCall.genCall default_reber_grammar,
        DriverCall.corruptCall default_reber_grammar POSSIBLE_CHARS]
      [0, 1, 2, 3, 4, 5, 6, 7, 8, 9, 10, 11, 12, 13, 14, 15, 16, 17, 18, 19] =
    runCalls 30 [DriverCall.genCall default_reber_grammar,
        DriverCall.corruptCall default_reber_grammar POSSIBLE_CHARS]
      [0, 1, 2, 3, 4, 5, 6, 7, 8, 9, 10, 11, 12, 13, 14, 15, 16, 17, 18, 19] ∧
    generate_corrupted_string 30 default_reber_grammar POSSIBLE_CHARS
      [0, 1, 2, 3, 4, 5, 6, 7, 8, 9, 10, 11, 12] =
    some ((['B', 'P', 'T', 'V', 'P', 'S', 'E'] : List Char).take 0 ++
      'S' :: (['B', 'P', 'T', 'V', 'P', 'S', 'E'] : List Char).drop 1,
      [9, 10, 11, 12]) :=
  ⟨prng_determinism_and_draw_order.1 30
      [DriverCall.genCall default_reber_grammar,
        DriverCall.corruptCall default_reber_grammar POSSIBLE_CHARS]
      [0, 1, 2, 3, 4, 5, 6, 7, 8, 9, 10, 11, 12, 13, 14, 15, 16, 17, 18, 19]
      [0, 1, 2, 3, 4, 5, 6, 7, 8, 9, 10, 11, 12, 13, 14, 15, 16, 17, 18, 19]
      rfl,
   prng_determinism_and_draw_order.2 30 default_reber_grammar POSSIBLE_CHARS
      [0, 1, 2, 3, 4, 5, 6, 7, 8, 9, 10, 11, 12]
      [7, 8, 9, 10, 11, 12] [8, 9, 10, 11, 12] [9, 10, 11, 12]
      ['B', 'P', 'T', 'V', 'P', 'S', 'E'] 0 'B' 'S'
      rfl rfl rfl rfl⟩
